import Mathlib

/-!
Verification of `ncbi_chromosome_exporter.py` (ChromoRetriever).

The Python source is shallowly embedded below.  Raw API records and output
rows are association lists from string keys to loosely-typed values
(`Value`), mirroring Python dicts built in insertion order.  Fallible
Python operations (dict subscript, `round` on a non-number, attribute
access on a non-string) are modelled with `Except PyErr`.  The stable
`list.sort(key=...)` is modelled by `List.insertionSort` over the
reflexive total key order `rowLE`; a stable sort's output is uniquely
determined by the key order, so this is behaviourally faithful to
CPython's stable sort.
-/

namespace ChromoRetriever

/-- Loosely-typed values stored in raw records and output rows, mirroring
the JSON-derived Python values the script manipulates: strings, numbers
(idealised as rationals) and `None`. -/
inductive Value : Type
  | str (s : String)
  | num (q : ℚ)
  | null
  deriving DecidableEq

/-- Python `==` on our values: equal only within the same type; any
cross-type comparison (and anything compared to `None` other than `None`)
is `False`. -/
def pyEq : Value → Value → Bool
  | .str a, .str b => a == b
  | .num a, .num b => a == b
  | .null, .null => true
  | _, _ => false

/-- Python truthiness of a value: `None`, `0` and `""` are falsy. -/
def truthy : Value → Bool
  | .null => false
  | .num q => !(q == 0)
  | .str s => !(s == "")

/-- A raw sequence report: a Python dict, as an association list. -/
abbrev RawRec : Type := List (String × Value)

/-- An output row (the `chrom_data` dict), also an association list. -/
abbrev Row : Type := List (String × Value)

/-- Python `seq.get(key, default)`. -/
def pyGetD (seq : RawRec) (key : String) (d : Value) : Value :=
  (List.lookup key seq).getD d

/-- Runtime errors the mapping/sorting code can raise.  The `except`
clause at line 132 of the source catches `KeyError`, `IndexError` and
`TypeError`; an `AttributeError` (e.g. `.replace` on a non-string) is not
caught. -/
inductive PyErr : Type
  | keyError
  | indexError
  | typeError
  | attrError
  deriving DecidableEq

/-- Whether the `except (KeyError, IndexError, TypeError)` clause catches
the error. -/
def PyErr.caught : PyErr → Bool
  | .keyError => true
  | .indexError => true
  | .typeError => true
  | .attrError => false

/-- Round half to even (the rounding Python's `round` uses), on an exact
rational model of the numeric values. -/
def rhe (x : ℚ) : ℤ :=
  if x - ⌊x⌋ = 1/2 then (if 2 ∣ ⌊x⌋ then ⌊x⌋ else ⌊x⌋ + 1) else round x

/-- Python `round(x, 1)` on the rational model. -/
def round1 (q : ℚ) : ℚ := (rhe (10 * q) : ℚ) / 10

/-- Python `s.replace("chr", "")`: delete every non-overlapping
occurrence of `chr`, scanning left to right. -/
def stripAllChr : List Char → List Char
  | [] => []
  | [c] => [c]
  | [c₁, c₂] => [c₁, c₂]
  | c₁ :: c₂ :: c₃ :: rest =>
    if c₁ = 'c' ∧ c₂ = 'h' ∧ c₃ = 'r' then stripAllChr rest
    else c₁ :: stripAllChr (c₂ :: c₃ :: rest)

/-- Python `s.replace("Chr", "")`: delete every non-overlapping
occurrence of `Chr`, scanning left to right. -/
def stripAllCapChr : List Char → List Char
  | [] => []
  | [c] => [c]
  | [c₁, c₂] => [c₁, c₂]
  | c₁ :: c₂ :: c₃ :: rest =>
    if c₁ = 'C' ∧ c₂ = 'h' ∧ c₃ = 'r' then stripAllCapChr rest
    else c₁ :: stripAllCapChr (c₂ :: c₃ :: rest)

/-- Line 112 of the source:
`chr_name = item['Chromosome'].replace("chr", "").replace("Chr", "").upper()`
(the lookup itself is modelled separately in `rowKey`). -/
def normalizeLabel (s : String) : String :=
  ⟨(stripAllCapChr (stripAllChr s.data)).map Char.toUpper⟩

/-- Tail of a valid Python integer-literal digit string: digits with
single underscores allowed only between digits. -/
def digitsTail : List Char → Bool
  | [] => true
  | '_' :: rest =>
    match rest with
    | [] => false
    | c :: _ => c.isDigit && digitsTail rest
  | c :: rest => c.isDigit && digitsTail rest

/-- A valid Python digit run: nonempty, starts with a digit, underscores
only between digits. -/
def validDigits : List Char → Bool
  | [] => false
  | c :: rest => c.isDigit && digitsTail rest

/-- Numeric value of a digit run, ignoring underscores. -/
def digitsVal (l : List Char) : ℤ :=
  l.foldl (fun acc c => if c = '_' then acc else 10 * acc + ((c.toNat : ℤ) - 48)) 0

/-- Python `int(s)` on a string: optional surrounding whitespace, an
optional sign, then a digit run (ASCII-digit model). `none` models the
`ValueError` that the source catches at line 120. -/
def pyInt (s : String) : Option ℤ :=
  let t := ((s.data.dropWhile Char.isWhitespace).reverse.dropWhile Char.isWhitespace).reverse
  match t with
  | '+' :: rest => if validDigits rest then some (digitsVal rest) else none
  | '-' :: rest => if validDigits rest then some (-(digitsVal rest)) else none
  | rest => if validDigits rest then some (digitsVal rest) else none

/-- The `special` dict at line 113. -/
def specialRank (s : String) : Option ℤ :=
  if s = "X" then some 1000
  else if s = "Y" then some 1001
  else if s = "MT" ∨ s = "M" ∨ s = "MITO" ∨ s = "MITOCHONDRION" then some 1002
  else none

/-- Is `c` an ASCII uppercase letter (`[A-Z]`)? -/
def isUpperAZ (c : Char) : Bool := 'A' ≤ c && c ≤ 'Z'

/-- The regex match at line 123: `^([A-Z]+)(\d+)$`, returning the letter
prefix and the numeric value of the digit suffix. -/
def reLetterDigits (s : String) : Option (String × ℤ) :=
  let p := s.data.takeWhile isUpperAZ
  let rest := s.data.dropWhile isUpperAZ
  if p ≠ [] ∧ rest ≠ [] ∧ rest.all Char.isDigit then some (⟨p⟩, digitsVal rest)
  else none

/-- Sort keys produced by `sort_key` (lines 110-128).  In Python they are
tuples `(0, int, "")`, `(1, str, int)` and `(2, str, 0)`; the leading
tier component makes any two of them comparable, which the three
constructors capture. -/
inductive Key : Type
  | t0 (n : ℤ)
  | t1 (p : String) (n : ℤ)
  | t2 (s : String)
  deriving DecidableEq

/-- Key computed from an already normalized label (the body of
`sort_key` after line 112). -/
def keyOfLabel (cn : String) : Key :=
  match specialRank cn with
  | some r => .t0 r
  | none =>
    match pyInt cn with
    | some n => .t0 n
    | none =>
      match reLetterDigits cn with
      | some (p, n) => .t1 p n
      | none => .t2 cn

/-- The whole of `sort_key` viewed as a function of the raw label string. -/
def sortKeyOfLabel (s : String) : Key := keyOfLabel (normalizeLabel s)

/-- Python `<=` on the sort-key tuples (lexicographic tuple comparison;
strings compare lexicographically by code point). -/
def keyLE : Key → Key → Bool
  | .t0 a, .t0 b => decide (a ≤ b)
  | .t0 _, .t1 _ _ => true
  | .t0 _, .t2 _ => true
  | .t1 _ _, .t0 _ => false
  | .t1 p a, .t1 q b => decide (p < q) || (decide (p = q) && decide (a ≤ b))
  | .t1 _ _, .t2 _ => true
  | .t2 _, .t0 _ => false
  | .t2 _, .t1 _ _ => false
  | .t2 s, .t2 t => decide (s ≤ t)

/-- `sort_key(item)`: `item['Chromosome']` raises `KeyError` when the
field was projected away; `.replace` on a non-string value raises
`AttributeError` (which the `except` clause does not catch). -/
def rowKey (item : Row) : Except PyErr Key :=
  match List.lookup "Chromosome" item with
  | none => .error .keyError
  | some (.str s) => .ok (sortKeyOfLabel s)
  | some _ => .error .attrError

/-- Key of a row, defaulting on the error cases.  The sort itself only
ever runs after every row's key has been computed successfully (CPython
precomputes all keys, in list order, before comparing), so the default is
never compared in a reachable execution. -/
def forceKey (item : Row) : Key :=
  match rowKey item with
  | .ok k => k
  | .error _ => .t0 0

/-- The row order used by `table_data.sort(key=sort_key)`. -/
def rowLE (a b : Row) : Prop := keyLE (forceKey a) (forceKey b) = true

instance : DecidableRel rowLE := fun a b =>
  inferInstanceAs (Decidable (keyLE (forceKey a) (forceKey b) = true))

instance {ε α : Type} [DecidableEq ε] [DecidableEq α] : DecidableEq (Except ε α)
  | .ok a, .ok b =>
    if h : a = b then .isTrue (by rw [h]) else .isFalse (fun hc => h (Except.ok.inj hc))
  | .error a, .error b =>
    if h : a = b then .isTrue (by rw [h]) else .isFalse (fun hc => h (Except.error.inj hc))
  | .ok _, .error _ => .isFalse (fun hc => Except.noConfusion hc)
  | .error _, .ok _ => .isFalse (fun hc => Except.noConfusion hc)

/-- Line 102 of the source:
`round(seq.get('gc_percent', 0), 1) if seq.get('gc_percent') else None`.
`round` on a (truthy) string raises `TypeError`. -/
def gcField (seq : RawRec) : Except PyErr Value :=
  match List.lookup "gc_percent" seq with
  | none => .ok .null
  | some v =>
    if truthy v then
      match v with
      | .num q => .ok (.num (round1 q))
      | _ => .error .typeError
    else .ok .null

/-- Line 90: `seq.get('chr_name', seq.get('assigned_molecule', 'N/A'))`. -/
def chrLabel (seq : RawRec) : Value :=
  pyGetD seq "chr_name" (pyGetD seq "assigned_molecule" (.str "N/A"))

/-- Lines 105-106: the column projection.  `exclude_columns` may be
`None` or a list; both `None` and `[]` are falsy, so the dict
comprehension only runs for a nonempty exclusion list (modelled here by a
single `List String` in which `[]` stands for either falsy value). -/
def project (excl : List String) (row : Row) : Row :=
  if excl.isEmpty then row
  else row.filter (fun kv => !(excl.contains kv.1))

/-- Lines 95-103: the `chrom_data` dict in insertion order, given the
already-computed GC value. -/
def baseRow (gid org : String) (seq : RawRec) (gc : Value) : Row :=
  [("GenomeID", .str gid),
   ("Taxon", .str org),
   ("Chromosome", chrLabel seq),
   ("GenBank", pyGetD seq "genbank_accession" (.str "N/A")),
   ("RefSeq", pyGetD seq "refseq_accession" (.str "n/a")),
   ("Size (bp)", pyGetD seq "length" (.num 0)),
   ("GC content (%)", gc)]

/-- Lines 95-106: build one `chrom_data` dict (in insertion order) and
apply the column projection. -/
def mkRow (gid org : String) (excl : List String) (seq : RawRec) : Except PyErr Row :=
  match gcField seq with
  | .error e => .error e
  | .ok gc => .ok (project excl (baseRow gid org seq gc))

/-- The combined inclusion rule of lines 84-93: the record is kept when
`assigned_molecule_location_type == "Chromosome"` or (`include_unplaced`
and `role == "assembled-molecule"`), and not (`include_unplaced` is false
and the resolved label equals `"Un"`). -/
def keepRecord (inc : Bool) (seq : RawRec) : Bool :=
  (pyEq (pyGetD seq "assigned_molecule_location_type" (.str "")) (.str "Chromosome")
      || (inc && pyEq (pyGetD seq "role" (.str "")) (.str "assembled-molecule")))
    && !(!inc && pyEq (chrLabel seq) (.str "Un"))

/-- Sequentially map `mkRow` over a record list, aborting on the first
error (used to state what the loop computes on the kept records). -/
def mkRows (gid org : String) (excl : List String) : List RawRec → Except PyErr (List Row)
  | [] => .ok []
  | seq :: rest =>
    match mkRow gid org excl seq with
    | .error e => .error e
    | .ok row =>
      match mkRows gid org excl rest with
      | .error e => .error e
      | .ok rows => .ok (row :: rows)

/-- The `for seq in reports` loop of lines 80-108: skip a record that
fails the inclusion test (lines 84-88), skip a record whose resolved
label is `"Un"` when unplaced records are excluded (lines 92-93),
otherwise append its row; the first raised error aborts the whole loop. -/
def mapLoop (gid org : String) (inc : Bool) (excl : List String) : List RawRec → Except PyErr (List Row)
  | [] => .ok []
  | seq :: rest =>
    let amlt := pyGetD seq "assigned_molecule_location_type" (.str "")
    let seqRole := pyGetD seq "role" (.str "")
    let isChromosome := pyEq amlt (.str "Chromosome")
    let isAssembled := pyEq seqRole (.str "assembled-molecule")
    if !isChromosome && !(inc && isAssembled) then
      mapLoop gid org inc excl rest
    else if !inc && pyEq (chrLabel seq) (.str "Un") then
      mapLoop gid org inc excl rest
    else
      match mkRow gid org excl seq with
      | .error e => .error e
      | .ok row =>
        match mapLoop gid org inc excl rest with
        | .error e => .error e
        | .ok rows => .ok (row :: rows)

/-- Line 130, `table_data.sort(key=sort_key)`: CPython first computes the
key of every row in list order (the first failing key computation raises),
then sorts stably by the precomputed keys. -/
def sortPhase (rows : List Row) : Except PyErr (List Row) :=
  match rows.findSome? (fun r =>
      match rowKey r with
      | .error e => some e
      | .ok _ => none) with
  | some e => .error e
  | none => .ok (rows.insertionSort rowLE)

/-- Lines 80-130: classify and map all records, then sort. -/
def mapAndSort (gid org : String) (inc : Bool) (excl : List String)
    (records : List RawRec) : Except PyErr (List Row) :=
  match mapLoop gid org inc excl records with
  | .error e => .error e
  | .ok rows => sortPhase rows

/-- Lines 79-138 with the organism name already resolved: the
`try`/`except (KeyError, IndexError, TypeError)` around the mapping loop
and the sort.  A caught error yields `([], organism_name)`; an uncaught
error (an `AttributeError`) propagates out of the function. -/
def fetch_core (gid org : String) (inc : Bool) (excl : List String)
    (records : List RawRec) : Except PyErr (List Row × String) :=
  match mapAndSort gid org inc excl records with
  | .ok rows => .ok (rows, org)
  | .error e => if e.caught then .ok ([], org) else .error e

/-- Outcome of one `requests.get` page in `fetch_all_sequence_reports`:
either a transport failure (network, timeout or `raise_for_status`), or a
JSON body carrying `reports` (defaulted to `[]` when absent) and an
optional `next_page_token`. -/
inductive PageResult : Type
  | transportError
  | success (reports : List RawRec) (tok : Option String)

/-- Line 37, `if not page_token: break`: both a missing token and an
empty-string token are falsy. -/
def tokenTruthy : Option String → Bool
  | none => false
  | some s => !(s == "")

/-- Reports carried by one page (for stating what gets accumulated). -/
def pageReports : PageResult → List RawRec
  | .transportError => []
  | .success reps _ => reps

/-- Lines 17-40, `fetch_all_sequence_reports`: follow the pagination loop
over the successive responses the server would return; a transport error
breaks the loop and whatever accumulated so far is returned; otherwise
extend by the page's reports and continue only on a truthy token. -/
def fetch_all_sequence_reports : List PageResult → List RawRec
  | [] => []
  | .transportError :: _ => []
  | .success reps tok :: rest =>
    reps ++ (if tokenTruthy tok then fetch_all_sequence_reports rest else [])

/-- Lines 43-138, `fetch_chromosome_table`, given the page responses and
the (optional) organism name the auxiliary lookup resolved: empty report
list short-circuits to `([], "Unknown")` (lines 56-58); otherwise the
mapping/sorting core runs with the resolved organism name. -/
def fetch_chromosome_table (gid : String) (inc : Bool) (excl : List String)
    (pages : List PageResult) (organismLookup : Option String) :
    Except PyErr (List Row × String) :=
  let reports := fetch_all_sequence_reports pages
  if reports.isEmpty then .ok ([], "Unknown")
  else fetch_core gid (organismLookup.getD "Unknown") inc excl reports

/-- Modelled from the spec: "Normalize the Chromosome label: strip any
leading "chr"/"Chr" prefix (case-sensitive variants "chr" and "Chr"
only), then uppercase the remainder."  Stated for comparison with the
source's `normalizeLabel`. -/
def specNormalizeLabel (s : String) : String :=
  let l := match s.data with
    | 'c' :: 'h' :: 'r' :: rest => rest
    | 'C' :: 'h' :: 'r' :: rest => rest
    | l => l
  ⟨l.map Char.toUpper⟩

/-! ### Properties of the key order -/

theorem keyLE_refl (k : Key) : keyLE k k = true := by
  cases k <;> simp [keyLE]

theorem keyLE_total (a b : Key) : keyLE a b = true ∨ keyLE b a = true := by
  cases a with
  | t0 m =>
    cases b with
    | t0 n => simp only [keyLE, decide_eq_true_eq]; omega
    | t1 q n => left; rfl
    | t2 t => left; rfl
  | t1 p m =>
    cases b with
    | t0 n => right; rfl
    | t1 q n =>
      simp only [keyLE, Bool.or_eq_true, Bool.and_eq_true, decide_eq_true_eq]
      rcases lt_trichotomy p q with h | h | h
      · exact Or.inl (Or.inl h)
      · subst h
        rcases Int.le_total m n with h' | h'
        · exact Or.inl (Or.inr ⟨rfl, h'⟩)
        · exact Or.inr (Or.inr ⟨rfl, h'⟩)
      · exact Or.inr (Or.inl h)
    | t2 t => left; rfl
  | t2 s =>
    cases b with
    | t0 n => right; rfl
    | t1 q n => right; rfl
    | t2 t => simp only [keyLE, decide_eq_true_eq]; exact le_total s t

theorem keyLE_trans (a b c : Key) (h₁ : keyLE a b = true) (h₂ : keyLE b c = true) :
    keyLE a c = true := by
  cases a <;> cases b <;> cases c <;>
    simp only [keyLE, Bool.or_eq_true, Bool.and_eq_true, decide_eq_true_eq] at h₁ h₂ ⊢ <;>
    try trivial
  · omega
  · rcases h₁ with h₁ | ⟨rfl, h₁⟩ <;> rcases h₂ with h₂ | ⟨rfl, h₂⟩
    · exact Or.inl (lt_trans h₁ h₂)
    · exact Or.inl h₁
    · exact Or.inl h₂
    · exact Or.inr ⟨rfl, le_trans h₁ h₂⟩
  · exact le_trans h₁ h₂

theorem keyLE_antisymm (a b : Key) (h₁ : keyLE a b = true) (h₂ : keyLE b a = true) :
    a = b := by
  cases a <;> cases b <;>
    simp only [keyLE, Bool.or_eq_true, Bool.and_eq_true, decide_eq_true_eq] at h₁ h₂ <;>
    try trivial
  · exact congrArg Key.t0 (le_antisymm h₁ h₂)
  · rcases h₁ with h₁ | ⟨rfl, h₁⟩ <;> rcases h₂ with h₂ | ⟨h₂e, h₂⟩
    · exact absurd h₂ (lt_asymm h₁)
    · exact absurd h₁ (by rw [h₂e] at h₁ ⊢; exact lt_irrefl _)
    · exact absurd h₂ (lt_irrefl _)
    · rw [le_antisymm h₁ h₂]
  · exact congrArg Key.t2 (le_antisymm h₁ h₂)

theorem rowLE_isTotal : ∀ a b : Row, rowLE a b ∨ rowLE b a :=
  fun a b => keyLE_total (forceKey a) (forceKey b)

theorem rowLE_isTrans : ∀ a b c : Row, rowLE a b → rowLE b c → rowLE a c :=
  fun a b c => keyLE_trans (forceKey a) (forceKey b) (forceKey c)

/-! ### Properties of the label normalization -/

theorem stripAllChr_cons_ne (c : Char) (hc : c ≠ 'c') (l : List Char) :
    stripAllChr (c :: l) = c :: stripAllChr l := by
  match l with
  | [] => rfl
  | [x] => rfl
  | x :: y :: t =>
    have hcond : ¬(c = 'c' ∧ x = 'h' ∧ y = 'r') := fun h => hc h.1
    simp [stripAllChr, hcond]

theorem stripAllCapChr_cons_ne (c : Char) (hc : c ≠ 'C') (l : List Char) :
    stripAllCapChr (c :: l) = c :: stripAllCapChr l := by
  match l with
  | [] => rfl
  | [x] => rfl
  | x :: y :: t =>
    have hcond : ¬(c = 'C' ∧ x = 'h' ∧ y = 'r') := fun h => hc h.1
    simp [stripAllCapChr, hcond]

theorem stripAllChr_eq_self :
    ∀ l : List Char, (∀ a b, l ≠ a ++ 'c' :: 'h' :: 'r' :: b) → stripAllChr l = l
  | [], _ => rfl
  | [_], _ => rfl
  | [_, _], _ => rfl
  | c₁ :: c₂ :: c₃ :: rest, h => by
    have hcond : ¬(c₁ = 'c' ∧ c₂ = 'h' ∧ c₃ = 'r') := by
      rintro ⟨rfl, rfl, rfl⟩
      exact h [] rest rfl
    have ih := stripAllChr_eq_self (c₂ :: c₃ :: rest)
      (fun a b hab => h (c₁ :: a) b (by simp [hab]))
    simp [stripAllChr, hcond, ih]

theorem stripAllCapChr_eq_self :
    ∀ l : List Char, (∀ a b, l ≠ a ++ 'C' :: 'h' :: 'r' :: b) → stripAllCapChr l = l
  | [], _ => rfl
  | [_], _ => rfl
  | [_, _], _ => rfl
  | c₁ :: c₂ :: c₃ :: rest, h => by
    have hcond : ¬(c₁ = 'C' ∧ c₂ = 'h' ∧ c₃ = 'r') := by
      rintro ⟨rfl, rfl, rfl⟩
      exact h [] rest rfl
    have ih := stripAllCapChr_eq_self (c₂ :: c₃ :: rest)
      (fun a b hab => h (c₁ :: a) b (by simp [hab]))
    simp [stripAllCapChr, hcond, ih]

theorem normalizeLabel_chr_cons (s : String) :
    normalizeLabel ⟨'c' :: 'h' :: 'r' :: s.data⟩ = normalizeLabel s := by
  have h1 : stripAllChr ('c' :: 'h' :: 'r' :: s.data) = stripAllChr s.data := by
    simp [stripAllChr]
  simp [normalizeLabel, h1]

theorem normalizeLabel_capChr_cons (s : String) :
    normalizeLabel ⟨'C' :: 'h' :: 'r' :: s.data⟩ = normalizeLabel s := by
  have h1 : stripAllChr ('C' :: 'h' :: 'r' :: s.data) = 'C' :: 'h' :: 'r' :: stripAllChr s.data := by
    rw [stripAllChr_cons_ne 'C' (by decide), stripAllChr_cons_ne 'h' (by decide),
      stripAllChr_cons_ne 'r' (by decide)]
  have h2 : stripAllCapChr ('C' :: 'h' :: 'r' :: stripAllChr s.data) =
      stripAllCapChr (stripAllChr s.data) := by
    simp [stripAllCapChr]
  simp [normalizeLabel, h1, h2]

/-! ### Claim theorems -/

/-- C2 counterexample: the comparator's normalization does not leave a
label with a non-leading `chr` occurrence intact apart from uppercasing.
On `"Achr1"` the source deletes the inner `chr` and yields `"A1"`,
whereas stripping only a leading prefix and uppercasing (the spec's
normalization) yields `"ACHR1"`. -/
theorem c2_counterexample :
    normalizeLabel "Achr1" = "A1" ∧ specNormalizeLabel "Achr1" = "ACHR1" ∧
      ("A1" : String) ≠ "ACHR1" := by
  refine ⟨by decide, by decide, by decide⟩

/-- C2 (amended): the comparator normalizes the label by deleting every
occurrence of `"chr"` and then every occurrence of `"Chr"` (two
case-sensitive variants only, wherever they occur, not only at the
start), then uppercasing.  In particular a leading `"chr"`/`"Chr"`
prefix is deleted, and a label containing neither substring is only
uppercased; but a non-leading occurrence is deleted as well
(`"Achr1" ↦ "A1"`) rather than left intact. -/
theorem c2_normalization_amended (s : String) :
    normalizeLabel ⟨'c' :: 'h' :: 'r' :: s.data⟩ = normalizeLabel s
    ∧ normalizeLabel ⟨'C' :: 'h' :: 'r' :: s.data⟩ = normalizeLabel s
    ∧ ((∀ a b, s.data ≠ a ++ 'c' :: 'h' :: 'r' :: b) →
        (∀ a b, s.data ≠ a ++ 'C' :: 'h' :: 'r' :: b) →
        normalizeLabel s = ⟨s.data.map Char.toUpper⟩)
    ∧ normalizeLabel "Achr1" = "A1" := by
  refine ⟨normalizeLabel_chr_cons s, normalizeLabel_capChr_cons s, ?_, by decide⟩
  intro h1 h2
  simp [normalizeLabel, stripAllChr_eq_self s.data h1, stripAllCapChr_eq_self s.data h2]

/-- C2 witness: the amended theorem applied at `"AB"`, whose data is too
short to contain `"chr"` or `"Chr"`. -/
theorem c2_normalization_amended_witness :
    normalizeLabel ⟨'c' :: 'h' :: 'r' :: ("AB" : String).data⟩ = normalizeLabel "AB"
    ∧ normalizeLabel "AB" = ⟨("AB" : String).data.map Char.toUpper⟩ := by
  have h1 : ∀ a b, ("AB" : String).data ≠ a ++ 'c' :: 'h' :: 'r' :: b := by
    intro a b h
    rw [show ("AB" : String).data = ['A', 'B'] from rfl] at h
    have hlen := congrArg List.length h
    simp at hlen; omega
  have h2 : ∀ a b, ("AB" : String).data ≠ a ++ 'C' :: 'h' :: 'r' :: b := by
    intro a b h
    rw [show ("AB" : String).data = ['A', 'B'] from rfl] at h
    have hlen := congrArg List.length h
    simp at hlen; omega
  exact ⟨(c2_normalization_amended "AB").1, (c2_normalization_amended "AB").2.2.1 h1 h2⟩

/-- C3 counterexample: the distinct labels `"chr1"` and `"1"` produce
equal sort keys, so non-equal keys do not hold for every pair of distinct
labels. -/
theorem c3_counterexample :
    sortKeyOfLabel "chr1" = sortKeyOfLabel "1" ∧ ("chr1" : String) ≠ "1" := by
  exact ⟨by decide, by decide⟩

/-- C3 (amended): the comparator produces comparable sort keys for every
pair of labels (the key order is total, and antisymmetric on the keys
themselves), but two distinct labels may produce equal keys (e.g.
`"chr1"` and `"1"`), so equal keys do not imply identical labels. -/
theorem c3_keys_comparable :
    (∀ l₁ l₂ : String,
        keyLE (sortKeyOfLabel l₁) (sortKeyOfLabel l₂) = true ∨
        keyLE (sortKeyOfLabel l₂) (sortKeyOfLabel l₁) = true)
    ∧ (∀ k₁ k₂ : Key, keyLE k₁ k₂ = true → keyLE k₂ k₁ = true → k₁ = k₂) :=
  ⟨fun _ _ => keyLE_total _ _, keyLE_antisymm⟩

/-- C3 witness: comparability at two concrete labels, and antisymmetry
discharged at a concrete pair of keys. -/
theorem c3_keys_comparable_witness :
    (keyLE (sortKeyOfLabel "chr2") (sortKeyOfLabel "X") = true ∨
      keyLE (sortKeyOfLabel "X") (sortKeyOfLabel "chr2") = true)
    ∧ Key.t0 5 = Key.t0 5 :=
  ⟨c3_keys_comparable.1 "chr2" "X",
    c3_keys_comparable.2 (.t0 5) (.t0 5) (by decide) (by decide)⟩

/-! ### Row construction lemmas -/

theorem project_nil (row : Row) : project [] row = row := rfl

theorem mkRow_ok {gid org : String} {excl : List String} {seq : RawRec} {row : Row}
    (h : mkRow gid org excl seq = .ok row) :
    ∃ gc, gcField seq = .ok gc ∧ row = project excl (baseRow gid org seq gc) := by
  unfold mkRow at h
  cases hgc : gcField seq with
  | error e => rw [hgc] at h; exact absurd h (by simp)
  | ok gc =>
    rw [hgc] at h
    exact ⟨gc, rfl, (Except.ok.inj h).symm⟩

/-- C6: `fetch_all_sequence_reports` accumulates the `reports` entries of
successive pages in arrival order; it stops at the first page carrying no
continuation token, and a transport error on any page yields exactly the
reports accumulated from the preceding pages (it is a total function, so
it never raises to its caller). -/
theorem c6_fetch_all_accumulates (pref rest : List PageResult) (reps : List RawRec)
    (h : ∀ p ∈ pref, ∃ rs t, p = .success rs t ∧ tokenTruthy t = true) :
    fetch_all_sequence_reports (pref ++ .success reps none :: rest)
        = (pref.map pageReports).flatten ++ reps
    ∧ fetch_all_sequence_reports (pref ++ .transportError :: rest)
        = (pref.map pageReports).flatten := by
  induction pref with
  | nil => simp [fetch_all_sequence_reports, tokenTruthy]
  | cons p ps ih =>
    obtain ⟨rs, t, rfl, ht⟩ := h p (List.mem_cons_self p ps)
    have ih' := ih (fun q hq => h q (List.mem_cons_of_mem _ hq))
    simp [fetch_all_sequence_reports, pageReports, ht, ih'.1, ih'.2, List.append_assoc]

/-- C6 witness: two pages (the first with a token, the second without)
accumulate in order, and a transport error on the second page keeps
exactly the first page's reports. -/
theorem c6_fetch_all_accumulates_witness :
    fetch_all_sequence_reports
        ([PageResult.success [[("chr_name", Value.str "1")]] (some "tok")]
          ++ .success [[("chr_name", Value.str "2")]] none :: [])
      = ([PageResult.success [[("chr_name", Value.str "1")]] (some "tok")].map
            pageReports).flatten ++ [[("chr_name", Value.str "2")]]
    ∧ fetch_all_sequence_reports
        ([PageResult.success [[("chr_name", Value.str "1")]] (some "tok")]
          ++ .transportError :: [])
      = ([PageResult.success [[("chr_name", Value.str "1")]] (some "tok")].map
            pageReports).flatten :=
  c6_fetch_all_accumulates
    [PageResult.success [[("chr_name", Value.str "1")]] (some "tok")] []
    [[("chr_name", Value.str "2")]]
    (by
      intro p hp
      simp only [List.mem_singleton] at hp
      exact ⟨[[("chr_name", Value.str "1")]], some "tok", hp, by decide⟩)

/-- C8: for a kept record (with no column exclusions) the output
`Chromosome` field is `chr_name` when present, else `assigned_molecule`
when present, else `"N/A"`; `GenBank` defaults to `"N/A"`, `RefSeq`
defaults to the lowercase `"n/a"`, and `Size (bp)` defaults to `0` when
the respective source keys are absent. -/
theorem c8_field_defaults (gid org : String) (seq : RawRec) (row : Row)
    (h : mkRow gid org [] seq = .ok row) :
    List.lookup "Chromosome" row
        = some ((List.lookup "chr_name" seq).getD
            ((List.lookup "assigned_molecule" seq).getD (.str "N/A")))
    ∧ (List.lookup "genbank_accession" seq = none →
        List.lookup "GenBank" row = some (.str "N/A"))
    ∧ (List.lookup "refseq_accession" seq = none →
        List.lookup "RefSeq" row = some (.str "n/a"))
    ∧ (List.lookup "length" seq = none →
        List.lookup "Size (bp)" row = some (.num 0)) := by
  obtain ⟨gc, -, rfl⟩ := mkRow_ok h
  rw [project_nil]
  refine ⟨rfl, ?_, ?_, ?_⟩
  · intro hg
    show some (pyGetD seq "genbank_accession" (.str "N/A")) = _
    rw [pyGetD, hg]
    rfl
  · intro hr
    show some (pyGetD seq "refseq_accession" (.str "n/a")) = _
    rw [pyGetD, hr]
    rfl
  · intro hl
    show some (pyGetD seq "length" (.num 0)) = _
    rw [pyGetD, hl]
    rfl

/-- C8 witness: the defaults all fire on the empty record. -/
theorem c8_field_defaults_witness :
    List.lookup "Chromosome" (baseRow "G1" "Org" [] Value.null)
        = some ((List.lookup "chr_name" ([] : RawRec)).getD
            ((List.lookup "assigned_molecule" ([] : RawRec)).getD (.str "N/A")))
    ∧ List.lookup "GenBank" (baseRow "G1" "Org" [] Value.null) = some (.str "N/A")
    ∧ List.lookup "RefSeq" (baseRow "G1" "Org" [] Value.null) = some (.str "n/a")
    ∧ List.lookup "Size (bp)" (baseRow "G1" "Org" [] Value.null) = some (.num 0) := by
  have h := c8_field_defaults "G1" "Org" [] (baseRow "G1" "Org" [] Value.null) (by rfl)
  exact ⟨h.1, h.2.1 rfl, h.2.2.1 rfl, h.2.2.2 rfl⟩

/-- C4: for a kept record the output `GC content (%)` field is the raw
`gc_percent` rounded to one decimal place when that value is a present,
truthy number, and `None` otherwise; in particular a raw `gc_percent` of
`0` produces a `None` GC field. -/
theorem c4_gc_rounding (gid org : String) (seq : RawRec) (row : Row)
    (h : mkRow gid org [] seq = .ok row) :
    List.lookup "GC content (%)" row
        = some (match List.lookup "gc_percent" seq with
            | some (.num q) => if q = 0 then Value.null else Value.num (round1 q)
            | _ => Value.null)
    ∧ (List.lookup "gc_percent" seq = some (.num 0) →
        List.lookup "GC content (%)" row = some Value.null) := by
  obtain ⟨gc, hgc, rfl⟩ := mkRow_ok h
  rw [project_nil]
  have hval : List.lookup "GC content (%)" (baseRow gid org seq gc) = some gc := rfl
  constructor
  · rw [hval]
    unfold gcField at hgc
    cases hl : List.lookup "gc_percent" seq with
    | none => rw [hl] at hgc; simp_all
    | some v =>
      rw [hl] at hgc
      cases v with
      | null => simp [truthy] at hgc; simp [← hgc]
      | num q =>
        by_cases hq : q = 0
        · subst hq
          simp [truthy] at hgc
          simp [← hgc]
        · simp [truthy, hq] at hgc
          simp [← hgc, hq]
      | str s =>
        by_cases hs : s = ""
        · subst hs
          simp [truthy] at hgc
          simp [← hgc]
        · simp [truthy, hs] at hgc
  · intro h0
    rw [hval]
    unfold gcField at hgc
    rw [h0] at hgc
    simp [truthy] at hgc
    simp [← hgc]

/-- C4 witness: a record with `gc_percent` equal to `0` yields a `None`
GC field, and the general formula evaluates on it. -/
theorem c4_gc_rounding_witness :
    List.lookup "GC content (%)" (baseRow "G1" "Org" [("gc_percent", Value.num 0)] Value.null)
        = some Value.null := by
  have h := c4_gc_rounding "G1" "Org" [("gc_percent", Value.num 0)]
    (baseRow "G1" "Org" [("gc_percent", Value.num 0)] Value.null) (by rfl)
  exact h.2 rfl

/-! ### Mapping loop lemmas -/

theorem mapLoop_eq_mkRows_filter (gid org : String) (inc : Bool) (excl : List String) :
    ∀ records, mapLoop gid org inc excl records
      = mkRows gid org excl (records.filter (fun seq => keepRecord inc seq))
  | [] => rfl
  | seq :: rest => by
    have ih := mapLoop_eq_mkRows_filter gid org inc excl rest
    simp only [mapLoop, List.filter_cons, keepRecord]
    generalize pyEq (pyGetD seq "assigned_molecule_location_type" (Value.str ""))
      (Value.str "Chromosome") = a
    generalize pyEq (pyGetD seq "role" (Value.str "")) (Value.str "assembled-molecule") = b
    generalize pyEq (chrLabel seq) (Value.str "Un") = c
    cases a <;> cases b <;> cases c <;> cases inc <;> simp_all [mkRows, keepRecord]

theorem mkRows_ok_mem {gid org : String} {excl : List String} :
    ∀ {l : List RawRec} {rows : List Row}, mkRows gid org excl l = .ok rows →
      ∀ row ∈ rows, ∃ seq ∈ l, mkRow gid org excl seq = .ok row := by
  intro l
  induction l with
  | nil =>
    intro rows h row hrow
    simp only [mkRows] at h
    cases h
    simp at hrow
  | cons seq rest ih =>
    intro rows h row hrow
    simp only [mkRows] at h
    cases hmk : mkRow gid org excl seq with
    | error e => rw [hmk] at h; exact absurd h (by simp)
    | ok r =>
      rw [hmk] at h
      cases hrest : mkRows gid org excl rest with
      | error e => rw [hrest] at h; exact absurd h (by simp)
      | ok rs =>
        rw [hrest] at h
        cases h
        rcases List.mem_cons.mp hrow with rfl | hrow'
        · exact ⟨seq, List.mem_cons_self _ _, hmk⟩
        · obtain ⟨s, hs, hmks⟩ := ih hrest row hrow'
          exact ⟨s, List.mem_cons_of_mem _ hs, hmks⟩

theorem mkRows_cons_ok {gid org : String} {excl : List String} {x : RawRec}
    {l : List RawRec} {rows : List Row} (h : mkRows gid org excl (x :: l) = .ok rows) :
    ∃ r rs, rows = r :: rs ∧ mkRow gid org excl x = .ok r := by
  simp only [mkRows] at h
  cases hmk : mkRow gid org excl x with
  | error e => rw [hmk] at h; exact absurd h (by simp)
  | ok r =>
    rw [hmk] at h
    cases hrest : mkRows gid org excl l with
    | error e => rw [hrest] at h; exact absurd h (by simp)
    | ok rs =>
      rw [hrest] at h
      cases h
      exact ⟨r, rs, rfl, rfl⟩

theorem gcField_error {seq : RawRec} {e : PyErr} (h : gcField seq = .error e) :
    e = .typeError := by
  unfold gcField at h
  split at h
  · exact absurd h (by simp)
  · split at h
    · split at h
      · exact absurd h (by simp)
      · exact (Except.error.inj h).symm
    · exact absurd h (by simp)

theorem mkRow_error {gid org : String} {excl : List String} {seq : RawRec} {e : PyErr}
    (h : mkRow gid org excl seq = .error e) : e = .typeError := by
  unfold mkRow at h
  cases hgc : gcField seq with
  | error e' =>
    rw [hgc] at h
    exact (Except.error.inj h) ▸ gcField_error hgc
  | ok gc => rw [hgc] at h; exact absurd h (by simp)

theorem mkRows_error {gid org : String} {excl : List String} :
    ∀ {l : List RawRec} {e : PyErr}, mkRows gid org excl l = .error e → e = .typeError := by
  intro l
  induction l with
  | nil => intro e h; simp [mkRows] at h
  | cons seq rest ih =>
    intro e h
    simp only [mkRows] at h
    cases hmk : mkRow gid org excl seq with
    | error e' =>
      rw [hmk] at h
      exact (Except.error.inj h) ▸ mkRow_error hmk
    | ok r =>
      rw [hmk] at h
      cases hrest : mkRows gid org excl rest with
      | error e' =>
        rw [hrest] at h
        exact (Except.error.inj h) ▸ ih hrest
      | ok rs => rw [hrest] at h; exact absurd h (by simp)

theorem lookup_filter_key (k : String) (q : String → Bool) (l : List (String × Value)) :
    List.lookup k (l.filter (fun kv => q kv.1)) = if q k then List.lookup k l else none := by
  induction l with
  | nil => simp
  | cons kv rest ih =>
    rcases kv with ⟨k', v⟩
    by_cases hk : k = k'
    · subst hk
      by_cases hq : q k = true
      · simp [List.filter_cons, hq, List.lookup_cons]
      · have hq' : q k = false := by simpa using hq
        simp [List.filter_cons, hq', List.lookup_cons, ih]
    · have hbk : (k == k') = false := by simp [hk]
      by_cases hq : q k' = true
      · simp [List.filter_cons, hq, List.lookup_cons, hbk, ih]
      · have hq' : q k' = false := by simpa using hq
        simp [List.filter_cons, hq', List.lookup_cons, hbk, ih]

theorem chrLabel_ne_Un {seq : RawRec} (h : pyEq (chrLabel seq) (.str "Un") = false) :
    chrLabel seq ≠ .str "Un" := by
  intro hc
  rw [hc] at h
  simp [pyEq] at h

theorem keep_false_not_Un {seq : RawRec} (hk : keepRecord false seq = true) :
    chrLabel seq ≠ .str "Un" := by
  unfold keepRecord at hk
  simp only [Bool.false_and, Bool.or_false, Bool.not_false, Bool.true_and,
    Bool.and_eq_true, Bool.not_eq_true'] at hk
  exact chrLabel_ne_Un hk.2

theorem lookup_chromosome_project (gid org : String) (excl : List String) (seq : RawRec)
    (gc : Value) :
    List.lookup "Chromosome" (project excl (baseRow gid org seq gc)) = none
    ∨ List.lookup "Chromosome" (project excl (baseRow gid org seq gc))
        = some (chrLabel seq) := by
  unfold project
  by_cases he : excl.isEmpty = true
  · rw [if_pos he]
    exact Or.inr rfl
  · rw [if_neg he]
    rw [lookup_filter_key "Chromosome" (fun k => !(excl.contains k)) (baseRow gid org seq gc)]
    by_cases hc : (!(excl.contains "Chromosome")) = true
    · rw [if_pos hc]
      exact Or.inr rfl
    · rw [if_neg hc]
      exact Or.inl rfl

theorem sortPhase_ok {rows out : List Row} (h : sortPhase rows = .ok out) :
    (∀ r ∈ rows, ∃ k, rowKey r = .ok k) ∧ out = rows.insertionSort rowLE := by
  unfold sortPhase at h
  cases hf : rows.findSome? (fun r =>
      match rowKey r with
      | .error e => some e
      | .ok _ => none) with
  | some e => rw [hf] at h; exact absurd h (by simp)
  | none =>
    rw [hf] at h
    refine ⟨?_, (Except.ok.inj h).symm⟩
    intro r hr
    have hzero := List.findSome?_eq_none_iff.mp hf r hr
    cases hk : rowKey r with
    | error e => rw [hk] at hzero; exact absurd hzero (by simp)
    | ok k => exact ⟨k, rfl⟩

/-- C1: each raw record yields a row exactly when the inclusion rule of
`keepRecord` holds for it (the mapping loop equals row construction over
the kept records, kept order preserved); and when `include_unplaced` is
false, no output row carries the Chromosome label `"Un"`. -/
theorem c1_inclusion_rule (gid org : String) (inc : Bool) (excl : List String)
    (records : List RawRec) :
    mapLoop gid org inc excl records
        = mkRows gid org excl (records.filter (fun seq => keepRecord inc seq))
    ∧ (∀ rows, mapAndSort gid org false excl records = .ok rows →
        ∀ row ∈ rows, List.lookup "Chromosome" row ≠ some (.str "Un")) := by
  refine ⟨mapLoop_eq_mkRows_filter gid org inc excl records, ?_⟩
  intro rows h row hrow
  unfold mapAndSort at h
  cases hml : mapLoop gid org false excl records with
  | error e => rw [hml] at h; exact absurd h (by simp)
  | ok rows₀ =>
    rw [hml] at h
    obtain ⟨-, rfl⟩ := sortPhase_ok h
    have hrow₀ : row ∈ rows₀ := (List.perm_insertionSort rowLE rows₀).mem_iff.mp hrow
    rw [mapLoop_eq_mkRows_filter gid org false excl records] at hml
    obtain ⟨seq, hseq, hmkr⟩ := mkRows_ok_mem hml row hrow₀
    have hkeep : keepRecord false seq = true := (List.mem_filter.mp hseq).2
    obtain ⟨gc, -, rfl⟩ := mkRow_ok hmkr
    rcases lookup_chromosome_project gid org excl seq gc with hl | hl
    · rw [hl]; simp
    · rw [hl]
      intro hcon
      exact keep_false_not_Un hkeep (Option.some.inj hcon)

/-- C1 witness: a concrete record set in which a `"Chromosome"`-typed
record is kept and an unplaced-scaffold record is skipped, evaluated
through the loop; the `"Un"` guarantee is checked on the produced row. -/
theorem c1_inclusion_rule_witness :
    List.lookup "Chromosome" [("GenomeID", Value.str "G1"), ("Taxon", Value.str "Org"),
        ("Chromosome", Value.str "1"), ("GenBank", Value.str "N/A"),
        ("RefSeq", Value.str "n/a"), ("Size (bp)", Value.num 0),
        ("GC content (%)", Value.null)]
      ≠ some (.str "Un") := by
  have h := (c1_inclusion_rule "G1" "Org" false []
    [[("assigned_molecule_location_type", Value.str "Chromosome"),
      ("chr_name", Value.str "1")],
     [("assigned_molecule_location_type", Value.str "Scaffold"),
      ("role", Value.str "unplaced-scaffold")]]).2
    [[("GenomeID", Value.str "G1"), ("Taxon", Value.str "Org"),
      ("Chromosome", Value.str "1"), ("GenBank", Value.str "N/A"),
      ("RefSeq", Value.str "n/a"), ("Size (bp)", Value.num 0),
      ("GC content (%)", Value.null)]] (by rfl)
  exact h _ (List.mem_singleton.mpr rfl)

/-- C5: if classifying, mapping or sorting an assembly's records raises a
key, index or type error, the per-assembly result is the empty row list
paired with the already-resolved organism name — no partially mapped rows
are emitted. -/
theorem c5_all_or_nothing (gid org : String) (inc : Bool) (excl : List String)
    (records : List RawRec) (e : PyErr)
    (herr : mapAndSort gid org inc excl records = .error e)
    (hkind : e = .keyError ∨ e = .indexError ∨ e = .typeError) :
    fetch_core gid org inc excl records = .ok ([], org) := by
  unfold fetch_core
  rw [herr]
  rcases hkind with rfl | rfl | rfl <;> rfl

/-- C5 witness: one record whose truthy string `gc_percent` raises
`TypeError` inside `round`, wiping the assembly's rows. -/
theorem c5_all_or_nothing_witness :
    fetch_core "G1" "Org" false []
        [[("assigned_molecule_location_type", Value.str "Chromosome"),
          ("gc_percent", Value.str "bad")]]
      = .ok ([], "Org") :=
  c5_all_or_nothing "G1" "Org" false []
    [[("assigned_molecule_location_type", Value.str "Chromosome"),
      ("gc_percent", Value.str "bad")]]
    .typeError (by rfl) (Or.inr (Or.inr rfl))

theorem row_chromosome_none {gid org : String} {excl : List String} {seq : RawRec} {row : Row}
    (hexcl : "Chromosome" ∈ excl) (h : mkRow gid org excl seq = .ok row) :
    List.lookup "Chromosome" row = none := by
  obtain ⟨gc, -, rfl⟩ := mkRow_ok h
  unfold project
  have hne : excl.isEmpty = false := by
    cases excl with
    | nil => exact absurd hexcl (List.not_mem_nil _)
    | cons a as => rfl
  have hcont : excl.contains "Chromosome" = true := List.elem_iff.mpr hexcl
  rw [hne]
  simp only [Bool.false_eq_true, if_false]
  rw [lookup_filter_key "Chromosome" (fun k => !(excl.contains k)) (baseRow gid org seq gc)]
  simp only [hcont, Bool.not_true, Bool.false_eq_true, if_false]

/-- C10: when the exclusion set contains `"Chromosome"` and at least one
record passes the inclusion rule, the per-assembly result is the empty
row list paired with the resolved organism name: projection runs before
sorting, `sort_key`'s `item['Chromosome']` lookup raises a `KeyError`
that the mapping error handler catches, and every row of the assembly is
discarded. -/
theorem c10_excluding_chromosome_clears (gid org : String) (inc : Bool) (excl : List String)
    (records : List RawRec)
    (hexcl : "Chromosome" ∈ excl)
    (hkept : ∃ seq ∈ records, keepRecord inc seq = true) :
    fetch_core gid org inc excl records = .ok ([], org) := by
  obtain ⟨seq, hmem, hkeep⟩ := hkept
  have hmemf : seq ∈ records.filter (fun s => keepRecord inc s) :=
    List.mem_filter.mpr ⟨hmem, hkeep⟩
  unfold fetch_core mapAndSort
  rw [mapLoop_eq_mkRows_filter]
  cases hfl : records.filter (fun s => keepRecord inc s) with
  | nil => rw [hfl] at hmemf; exact absurd hmemf (List.not_mem_nil _)
  | cons x xs =>
    cases hmk : mkRows gid org excl (x :: xs) with
    | error e =>
      have he : e = .typeError := mkRows_error hmk
      subst he
      rfl
    | ok rows₀ =>
      obtain ⟨r, rs, rfl, hmkr⟩ := mkRows_cons_ok hmk
      have hnone : List.lookup "Chromosome" r = none := row_chromosome_none hexcl hmkr
      have hrk : rowKey r = .error .keyError := by unfold rowKey; rw [hnone]
      have hsp : sortPhase (r :: rs) = .error .keyError := by
        simp [sortPhase, List.findSome?_cons, hrk]
      have hred : (match (Except.ok (r :: rs) : Except PyErr (List Row)) with
          | Except.error e => Except.error e
          | Except.ok rows => sortPhase rows) = sortPhase (r :: rs) := rfl
      rw [hred, hsp]
      rfl

/-- C10 witness: one kept record, exclusion set `["Chromosome"]`;
the assembly's rows collapse to the empty list. -/
theorem c10_excluding_chromosome_clears_witness :
    fetch_core "G1" "Org" false ["Chromosome"]
        [[("assigned_molecule_location_type", Value.str "Chromosome"),
          ("chr_name", Value.str "1")]]
      = .ok ([], "Org") :=
  c10_excluding_chromosome_clears "G1" "Org" false ["Chromosome"]
    [[("assigned_molecule_location_type", Value.str "Chromosome"),
      ("chr_name", Value.str "1")]]
    (List.mem_singleton.mpr rfl)
    ⟨[("assigned_molecule_location_type", Value.str "Chromosome"),
      ("chr_name", Value.str "1")], List.mem_singleton.mpr rfl, by rfl⟩

/-! ### Stability of the sort -/

theorem forceKey_of_rowKey {r : Row} {k : Key} (h : rowKey r = .ok k) : forceKey r = k := by
  unfold forceKey
  rw [h]

theorem filter_orderedInsert (p : Row → Bool) (a : Row)
    (hpa : ∀ b : Row, p a = true → p b = true → rowLE a b) :
    ∀ l : List Row, List.filter p (List.orderedInsert rowLE a l) = List.filter p (a :: l)
  | [] => rfl
  | b :: l => by
    by_cases hab : rowLE a b
    · rw [List.orderedInsert, if_pos hab]
    · rw [List.orderedInsert, if_neg hab]
      by_cases hpa' : p a = true
      · have hpb : p b = false := by
          cases hpb : p b
          · rfl
          · exact absurd (hpa b hpa' hpb) hab
        simp [List.filter_cons, hpb, filter_orderedInsert p a hpa l, hpa']
      · have hpa0 : p a = false := by simpa using hpa'
        simp [List.filter_cons, hpa0, filter_orderedInsert p a hpa l]

theorem filter_insertionSort (p : Row → Bool)
    (hp : ∀ a b : Row, p a = true → p b = true → rowLE a b) :
    ∀ l : List Row, List.filter p (List.insertionSort rowLE l) = List.filter p l
  | [] => rfl
  | a :: l => by
    rw [List.insertionSort]
    rw [filter_orderedInsert p a (fun b => hp a b) (List.insertionSort rowLE l)]
    simp [List.filter_cons, filter_insertionSort p hp l]

/-- C7: the stable sort on canonical rows is idempotent (sorting the
already-sorted output again succeeds and returns it unchanged) and stable
(for every key, the rows carrying that key appear in the output in the
same order they were produced by classification). -/
theorem c7_sort_idempotent_stable (rows out : List Row)
    (h : sortPhase rows = .ok out) :
    sortPhase out = .ok out
    ∧ ∀ k : Key, out.filter (fun r => decide (rowKey r = Except.ok k))
        = rows.filter (fun r => decide (rowKey r = Except.ok k)) := by
  obtain ⟨hok, rfl⟩ := sortPhase_ok h
  constructor
  · have hperm := List.perm_insertionSort rowLE rows
    have hnone : (List.insertionSort rowLE rows).findSome? (fun r =>
        match rowKey r with
        | .error e => some e
        | .ok _ => none) = none := by
      rw [List.findSome?_eq_none_iff]
      intro r hr
      obtain ⟨k, hk⟩ := hok r (hperm.mem_iff.mp hr)
      simp [hk]
    unfold sortPhase
    rw [hnone]
    haveI : IsTotal Row rowLE := ⟨rowLE_isTotal⟩
    haveI : IsTrans Row rowLE := ⟨rowLE_isTrans⟩
    have hsorted : List.Sorted rowLE (List.insertionSort rowLE rows) :=
      List.sorted_insertionSort rowLE rows
    rw [hsorted.insertionSort_eq]
  · intro k
    refine filter_insertionSort (fun r => decide (rowKey r = Except.ok k)) ?_ rows
    intro a b hpa hpb
    have ha : rowKey a = .ok k := of_decide_eq_true hpa
    have hb : rowKey b = .ok k := of_decide_eq_true hpb
    unfold rowLE
    rw [forceKey_of_rowKey ha, forceKey_of_rowKey hb]
    exact keyLE_refl k

/-- C7 witness: sorting two one-field rows swaps them, and re-sorting the
output leaves it unchanged. -/
theorem c7_sort_idempotent_stable_witness :
    sortPhase [[("Chromosome", Value.str "1")], [("Chromosome", Value.str "2")]]
      = .ok [[("Chromosome", Value.str "1")], [("Chromosome", Value.str "2")]] :=
  (c7_sort_idempotent_stable
    [[("Chromosome", Value.str "2")], [("Chromosome", Value.str "1")]]
    [[("Chromosome", Value.str "1")], [("Chromosome", Value.str "2")]]
    (by rfl)).1

/-! ### Column projection as a frame property -/

theorem mkRow_project_refseq (gid org : String) (seq : RawRec) :
    mkRow gid org ["RefSeq"] seq = (mkRow gid org [] seq).map (project ["RefSeq"]) := by
  unfold mkRow
  cases gcField seq with
  | error e => rfl
  | ok gc => rfl

theorem mapLoop_project_refseq (gid org : String) (inc : Bool) :
    ∀ records, mapLoop gid org inc ["RefSeq"] records
      = (mapLoop gid org inc [] records).map (List.map (project ["RefSeq"]))
  | [] => rfl
  | seq :: rest => by
    have ih := mapLoop_project_refseq gid org inc rest
    simp only [mapLoop]
    split_ifs
    · exact ih
    · exact ih
    · rw [mkRow_project_refseq]
      cases hmk : mkRow gid org [] seq with
      | error e => rfl
      | ok row =>
        simp only [Except.map]
        rw [ih]
        cases hml : mapLoop gid org inc [] rest with
        | error e => rfl
        | ok rows => rfl

theorem lookup_project_refseq (k : String) (hk : (k == "RefSeq") = false) (row : Row) :
    List.lookup k (project ["RefSeq"] row) = List.lookup k row := by
  unfold project
  simp only [List.isEmpty_cons, Bool.false_eq_true, if_false]
  rw [lookup_filter_key k (fun s => !(List.contains ["RefSeq"] s)) row]
  have hc : (["RefSeq"] : List String).contains k = false := by
    simp [List.contains_cons]
    intro hke
    rw [hke] at hk
    simp at hk
  rw [hc]
  simp

theorem rowKey_project_refseq (row : Row) :
    rowKey (project ["RefSeq"] row) = rowKey row := by
  unfold rowKey
  rw [lookup_project_refseq "Chromosome" (by decide) row]

theorem forceKey_project_refseq (row : Row) :
    forceKey (project ["RefSeq"] row) = forceKey row := by
  unfold forceKey
  rw [rowKey_project_refseq]

theorem sortPhase_project_refseq (rows : List Row) :
    sortPhase (rows.map (project ["RefSeq"]))
      = (sortPhase rows).map (List.map (project ["RefSeq"])) := by
  unfold sortPhase
  rw [List.findSome?_map]
  have hcomp : ((fun r : Row =>
        match rowKey r with
        | .error e => some e
        | .ok _ => none) ∘ project ["RefSeq"])
      = (fun r : Row =>
        match rowKey r with
        | .error e => some e
        | .ok _ => none) := by
    funext r
    simp [Function.comp, rowKey_project_refseq r]
  rw [hcomp]
  cases hf : rows.findSome? (fun r =>
      match rowKey r with
      | .error e => some e
      | .ok _ => none) with
  | some e => rfl
  | none =>
    simp only [Except.map]
    have hmap := List.map_insertionSort rowLE rowLE (project ["RefSeq"]) rows
      (fun a _ b _ => by
        unfold rowLE
        rw [forceKey_project_refseq a, forceKey_project_refseq b])
    rw [← hmap]

/-- C9: running with exclusion set `["RefSeq"]` produces exactly the rows
of the run with an empty exclusion set with the `RefSeq` field projected
away from every row (same rows, same values, same order, and the same
error behaviour); and with an empty (or unset) exclusion set the
projection step is the identity transform. -/
theorem c9_refseq_exclusion_frame (gid org : String) (inc : Bool) (records : List RawRec) :
    fetch_core gid org inc ["RefSeq"] records
      = (fetch_core gid org inc [] records).map
          (fun pr => (pr.1.map (project ["RefSeq"]), pr.2))
    ∧ ∀ row : Row, project [] row = row := by
  refine ⟨?_, project_nil⟩
  unfold fetch_core mapAndSort
  rw [mapLoop_project_refseq]
  cases hml : mapLoop gid org inc [] records with
  | error e =>
    cases hc : e.caught with
    | false => simp [Except.map, hc]
    | true => simp [Except.map, hc]
  | ok rows =>
    simp only [Except.map]
    rw [sortPhase_project_refseq]
    cases hsp : sortPhase rows with
    | error e =>
      cases hc : e.caught with
      | false => simp [Except.map, hc]
      | true => simp [Except.map, hc]
    | ok sorted => rfl

end ChromoRetriever
